import Mathlib

/-!
Verification of the in-memory BM25-style retrieval service
(`src/services/vectorDbService.js`).

The JavaScript module keeps three module-level variables — `storedDocs`,
`dfMap`, `avgDocLength` — and exposes `initializeVectorStore`,
`addDocuments` and `searchDocuments`.  We embed the module state as a
structure `DbState` and each exported function as a state-passing Lean
function.  JavaScript numbers are modelled with exact arithmetic: token
counts and lengths are `ℕ`, the stored average document length is `ℚ`,
and BM25 scores (which involve `Math.log`) are `ℝ`.

Inputs to the batch-load operations are `List (Option String)`: `some s`
is a string entry, `none` models a `null`/non-string entry, on which
`text.toLowerCase()` throws a `TypeError`.
-/

namespace VectorDb

/-! ### Tokenizer

`tokenize` lower-cases the input and splits it on the regular expression
`/[^a-z0-9]+/g`, dropping falsy (empty) chunks.  We split at every single
separator character instead of at maximal separator runs; the two differ
only in empty chunks, which the `filter` removes. -/

/-- A character accepted by the regex character class `[a-z0-9]`. -/
def isTokenChar (c : Char) : Bool :=
  ('a' ≤ c && c ≤ 'z') || ('0' ≤ c && c ≤ '9')

/-- Split a character list at every character outside `[a-z0-9]`.
Chunks may be empty (before a leading separator, between two adjacent
separators, after a trailing separator). -/
def splitChars : List Char → List (List Char)
  | [] => [[]]
  | c :: cs =>
    if isTokenChar c then (splitChars cs).modifyHead (fun r => c :: r)
    else [] :: splitChars cs

/-- `text.toLowerCase().split(/[^a-z0-9]+/g).filter(Boolean)`. -/
def tokenize (s : String) : List String :=
  ((splitChars (s.data.map Char.toLower)).filter (fun r => !r.isEmpty)).map
    (fun r => String.mk r)

/-! ### Document records -/

/-- `for (const t of tokens) termFreq.set(t, (termFreq.get(t) || 0) + 1)`:
the term-frequency map built per document, with `termFreq.get(t) || 0`
lookup semantics (absent keys read as `0`). -/
def buildFreq (tokens : List String) : String → ℕ :=
  tokens.foldl (fun m t => fun u => if u = t then m u + 1 else m u) (fun _ => 0)

/-- One entry of `storedDocs`: `{ pageContent: text, tokens, termFreq }`. -/
structure DocRecord where
  pageContent : String
  tokens : List String
  termFreq : String → ℕ

/-- Record construction shared by `initializeVectorStore` and
`addDocuments`. -/
def mkRecord (text : String) : DocRecord :=
  { pageContent := text
    tokens := tokenize text
    termFreq := buildFreq (tokenize text) }

/-! ### Module state and index rebuild -/

/-- The three module-level variables of `vectorDbService.js`.  `dfMap` is
read through `dfMap.get(t) || 0`, so we model it as a total function. -/
structure DbState where
  storedDocs : List DocRecord
  dfMap : String → ℕ
  avgDocLength : ℚ

/-- Initial module state: `storedDocs = []`, `dfMap = new Map()`,
`avgDocLength = 0`. -/
def emptyState : DbState :=
  { storedDocs := [], dfMap := fun _ => 0, avgDocLength := 0 }

/-- The inner loop of `rebuildIndex`: for each token in the unique-token
set of a document, increment its document-frequency entry once.  The
`Set` of unique tokens is modelled by a membership test: each distinct
member of `tokens` is incremented exactly once. -/
def bumpUnique (m : String → ℕ) (tokens : List String) : String → ℕ :=
  fun t => if t ∈ tokens then m t + 1 else m t

/-- The document-frequency map computed by `rebuildIndex`, starting from
`new Map()` and folding over `storedDocs`. -/
def rebuildDf (docs : List DocRecord) : String → ℕ :=
  docs.foldl (fun m d => bumpUnique m d.tokens) (fun _ => 0)

/-- `totalLength` accumulated by `rebuildIndex`. -/
def totalLen (docs : List DocRecord) : ℕ :=
  (docs.map (fun d => d.tokens.length)).sum

/-- `avgDocLength = storedDocs.length > 0 ? totalLength / storedDocs.length : 0`. -/
def rebuildAvg (docs : List DocRecord) : ℚ :=
  if 0 < docs.length then (totalLen docs : ℚ) / (docs.length : ℚ) else 0

/-- `rebuildIndex()`: recompute `dfMap` and `avgDocLength` from the
current `storedDocs`. -/
def rebuildIndex (st : DbState) : DbState :=
  { st with
    dfMap := rebuildDf st.storedDocs
    avgDocLength := rebuildAvg st.storedDocs }

/-! ### Batch loads -/

/-- `documents.map((text) => { ... })` inside `initializeVectorStore`:
builds all records, or throws (`none`) at the first `null`/non-string
entry, in which case no assignment to `storedDocs` happens. -/
def buildRecords : List (Option String) → Option (List DocRecord)
  | [] => some []
  | none :: _ => none
  | some s :: rest => (buildRecords rest).map (fun ds => mkRecord s :: ds)

/-- `initializeVectorStore(documents)`: replaces `storedDocs` and rebuilds
the index, returning `true`; the surrounding `try/catch` turns a thrown
`TypeError` into a `false` return with the module state untouched. -/
def initializeVectorStore (st : DbState) (documents : List (Option String)) :
    Bool × DbState :=
  match buildRecords documents with
  | some docs => (true, rebuildIndex { st with storedDocs := docs })
  | none => (false, st)

/-- The `for (const text of documents)` loop of `addDocuments`: pushes one
record per entry onto `storedDocs`; a `null`/non-string entry throws,
leaving the records pushed so far in place and skipping `rebuildIndex`.
The `Bool` records whether the call completed normally (`true`) or the
exception propagated to the caller (`false`). -/
def addLoop (st : DbState) : List (Option String) → Bool × DbState
  | [] => (true, rebuildIndex st)
  | some s :: rest =>
      addLoop { st with storedDocs := st.storedDocs ++ [mkRecord s] } rest
  | none :: _ => (false, st)

/-- `addDocuments(documents)`. -/
def addDocuments (st : DbState) (documents : List (Option String)) :
    Bool × DbState :=
  addLoop st documents

/-! ### BM25 scoring (`searchDocuments`)

Scores use `Math.log`, so they live in `ℝ`; the definitions in this
section are `noncomputable` for that reason alone. -/

/-- `const k1 = 1.5`. -/
def k1 : ℝ := 1.5

/-- `const b = 0.75`. -/
def b : ℝ := 0.75

/-- `Math.log(1 + (N - df + 0.5) / (df + 0.5))` — natural logarithm. -/
noncomputable def idfVal (N df : ℕ) : ℝ :=
  Real.log (1 + ((N : ℝ) - (df : ℝ) + 0.5) / ((df : ℝ) + 0.5))

/-- `doc.tokens.length || 1`. -/
def dlEff (d : DocRecord) : ℕ :=
  if d.tokens.length = 0 then 1 else d.tokens.length

/-- `avgDocLength || 1`. -/
def avgEff (avg : ℚ) : ℚ :=
  if avg = 0 then 1 else avg

/-- `tf + k1 * (1 - b + (b * dl) / (avgDocLength || 1))`. -/
noncomputable def scoreDenom (tf dl : ℕ) (avg : ℚ) : ℝ :=
  (tf : ℝ) + k1 * (1 - b + (b * (dl : ℝ)) / ((avgEff avg : ℚ) : ℝ))

/-- One iteration of the `for (const qt of queryTokens)` loop: the amount
added to `score` for the query token `qt` (`0` when `tf === 0` and the
loop `continue`s). -/
noncomputable def tokenContrib (N : ℕ) (df : String → ℕ) (avg : ℚ)
    (d : DocRecord) (qt : String) : ℝ :=
  if d.termFreq qt = 0 then 0
  else
    idfVal N (df qt) *
      (((d.termFreq qt : ℝ) * (k1 + 1)) / scoreDenom (d.termFreq qt) (dlEff d) avg)

/-- The final value of `score` for one document: the loop accumulates the
contributions of the query tokens in order. -/
noncomputable def scoreDoc (N : ℕ) (df : String → ℕ) (avg : ℚ)
    (d : DocRecord) (queryTokens : List String) : ℝ :=
  (queryTokens.map (tokenContrib N df avg d)).sum

/-- `const scored = storedDocs.map((doc) => ({ doc, score }))`. -/
noncomputable def scoredList (st : DbState) (queryTokens : List String) :
    List (DocRecord × ℝ) :=
  st.storedDocs.map
    (fun d => (d, scoreDoc st.storedDocs.length st.dfMap st.avgDocLength d queryTokens))

open scoped Classical

/-- Insert an entry into an already descending-sorted list, before the
first entry whose score is `≤` its own.  This is the insertion step of a
stable descending sort. -/
noncomputable def insertDesc (x : DocRecord × ℝ) :
    List (DocRecord × ℝ) → List (DocRecord × ℝ)
  | [] => [x]
  | y :: ys => if y.2 ≤ x.2 then x :: y :: ys else y :: insertDesc x ys

/-- `scored.sort((a, b) => b.score - a.score)`.  ECMAScript `sort` is a
stable sort, and every stable sort agrees with stable insertion sort on
the total preorder induced by the comparator, so we model it by insertion
sort descending on scores. -/
noncomputable def sortDesc : List (DocRecord × ℝ) → List (DocRecord × ℝ)
  | [] => []
  | x :: xs => insertDesc x (sortDesc xs)

/-- One returned entry: `{ pageContent, score }`. -/
structure SearchResult where
  pageContent : String
  score : ℝ

/-- `searchDocuments(query, k)` (the source defaults `k` to 5 at the call
boundary; we keep it explicit). -/
noncomputable def searchDocuments (st : DbState) (query : String) (k : ℕ) :
    List SearchResult :=
  if st.storedDocs.length = 0 then []
  else if (tokenize query).length = 0 then []
  else
    (((sortDesc (scoredList st (tokenize query))).filter (fun p => 0 < p.2)).take k).map
      (fun p => { pageContent := p.1.pageContent, score := p.2 })

/-- `searchDocuments` viewed as a state transformer, like the two mutation
operations: it only reads the module variables, so it returns the state it
was given. -/
noncomputable def searchDocumentsS (st : DbState) (query : String) (k : ℕ) :
    List SearchResult × DbState :=
  (searchDocuments st query k, st)

/-! ### Characterizations of the rebuilt index -/

/-- The number of stored records whose token sequence contains `t` (the
spec's reading of `documentFrequency`). -/
def dfCount (docs : List DocRecord) (t : String) : ℕ :=
  docs.countP (fun d => decide (t ∈ d.tokens))

/-- Index Statistics are consistent with the Corpus Store: each token's
document frequency counts the records containing it, and the stored
average is the mean token-sequence length. -/
def consistent (st : DbState) : Prop :=
  (∀ t, st.dfMap t = dfCount st.storedDocs t) ∧
    st.avgDocLength = rebuildAvg st.storedDocs

lemma buildFreq_go (toks : List String) (m : String → ℕ) (t : String) :
    (toks.foldl (fun m t' => fun u => if u = t' then m u + 1 else m u) m) t =
      m t + toks.count t := by
  induction toks generalizing m with
  | nil => simp
  | cons a toks ih =>
      rw [List.foldl_cons, ih, List.count_cons]
      by_cases h : t = a
      · subst h
        simp
        omega
      · have h2 : (a == t) = false := by
          simp only [beq_eq_false_iff_ne]
          exact fun e => h e.symm
        simp [h, h2]

/-- The per-document term-frequency map holds exactly the occurrence
counts of the document's tokens. -/
lemma buildFreq_eq_count (toks : List String) (t : String) :
    buildFreq toks t = toks.count t := by
  simpa [buildFreq] using buildFreq_go toks (fun _ => 0) t

lemma mkRecord_termFreq (s : String) (t : String) :
    (mkRecord s).termFreq t = (tokenize s).count t :=
  buildFreq_eq_count _ _

lemma rebuildDf_go (docs : List DocRecord) (m : String → ℕ) (t : String) :
    (docs.foldl (fun m d => bumpUnique m d.tokens) m) t = m t + dfCount docs t := by
  induction docs generalizing m with
  | nil => simp [dfCount]
  | cons d docs ih =>
      rw [List.foldl_cons, ih]
      simp only [dfCount, List.countP_cons, bumpUnique]
      by_cases h : t ∈ d.tokens <;> simp [h] <;> omega

/-- The fold in `rebuildIndex` computes, for every token, the number of
stored records containing it. -/
lemma rebuildDf_eq (docs : List DocRecord) (t : String) :
    rebuildDf docs t = dfCount docs t := by
  simpa [rebuildDf] using rebuildDf_go docs (fun _ => 0) t

/-- `rebuildIndex` always leaves the statistics consistent with the
store. -/
lemma consistent_rebuildIndex (st : DbState) : consistent (rebuildIndex st) :=
  ⟨fun t => rebuildDf_eq _ t, rfl⟩

/-! ### Tokenizer specification

Modelled from the spec: §4.1 describes the tokenizer output as the
ordered sequence of maximal runs of `[a-z0-9]` characters of the
lower-cased input.  `specRuns` extracts maximal runs directly
(`takeWhile`/`dropWhile`), independently of the split-and-filter shape of
the implementation. -/

lemma length_dropWhile_le (p : Char → Bool) (l : List Char) :
    (l.dropWhile p).length ≤ l.length := by
  induction l with
  | nil => simp
  | cons c cs ih =>
      rw [List.dropWhile_cons]
      split
      · exact ih.trans (by simp)
      · simp

/-- Modelled from the spec: the ordered sequence of maximal runs of
accepted characters in a character list. -/
def specRuns : List Char → List String
  | [] => []
  | c :: cs =>
    if isTokenChar c then
      String.mk (c :: cs.takeWhile isTokenChar) :: specRuns (cs.dropWhile isTokenChar)
    else specRuns cs
termination_by l => l.length
decreasing_by
  · simpa [Nat.lt_succ_iff] using length_dropWhile_le isTokenChar cs
  · simp

/-- Modelled from the spec: maximal runs of the lower-cased input. -/
def specTokenize (s : String) : List String :=
  specRuns (s.data.map Char.toLower)

/-- What follows the head chunk in `splitChars`. -/
def splitTail (l : List Char) : List (List Char) :=
  match l.dropWhile isTokenChar with
  | [] => []
  | _ :: t => splitChars t

lemma splitChars_eq (l : List Char) :
    splitChars l = l.takeWhile isTokenChar :: splitTail l := by
  induction l with
  | nil => simp [splitChars, splitTail]
  | cons c cs ih =>
      by_cases h : isTokenChar c
      · simp only [splitChars, if_pos h, ih, List.modifyHead_cons,
          List.takeWhile_cons_of_pos h, splitTail, List.dropWhile_cons_of_pos h]
      · simp only [splitChars, if_neg h, splitTail,
          List.takeWhile_cons_of_neg h, List.dropWhile_cons_of_neg h]

/-- The filtered chunks of `splitChars`, as produced inside `tokenize`. -/
def tokChunks (l : List Char) : List String :=
  ((splitChars l).filter (fun r => !r.isEmpty)).map (fun r => String.mk r)

lemma dropWhile_head_false (p : Char → Bool) {l t : List Char} {d : Char}
    (h : l.dropWhile p = d :: t) : p d = false := by
  induction l with
  | nil => simp at h
  | cons c cs ih =>
      rw [List.dropWhile_cons] at h
      split at h
      · exact ih h
      · next hc =>
          cases h
          simpa using hc

lemma splitTail_cons_of_pos {c : Char} {cs : List Char} (h : isTokenChar c) :
    splitTail (c :: cs) = splitTail cs := by
  unfold splitTail
  rw [List.dropWhile_cons_of_pos h]

lemma splitTail_of_eq_nil {l : List Char} (h : l.dropWhile isTokenChar = []) :
    splitTail l = [] := by
  unfold splitTail
  rw [h]

lemma splitTail_of_eq_cons {l t : List Char} {d : Char}
    (h : l.dropWhile isTokenChar = d :: t) : splitTail l = splitChars t := by
  unfold splitTail
  rw [h]

lemma tokChunks_eq_specRuns_fuel :
    ∀ (n : ℕ) (l : List Char), l.length ≤ n → tokChunks l = specRuns l := by
  intro n
  induction n with
  | zero =>
      intro l hl
      rw [List.length_eq_zero.mp (Nat.le_zero.mp hl)]
      simp [tokChunks, splitChars, specRuns]
  | succ n ih =>
      intro l hl
      match l with
      | [] => simp [tokChunks, splitChars, specRuns]
      | c :: cs =>
          by_cases h : isTokenChar c
          · rw [tokChunks, splitChars_eq, List.takeWhile_cons_of_pos h,
              splitTail_cons_of_pos h, specRuns, if_pos h]
            simp only [List.filter_cons, List.isEmpty_cons, Bool.not_false,
              if_pos, List.map_cons, List.cons.injEq, true_and]
            cases hB : cs.dropWhile isTokenChar with
            | nil =>
                rw [splitTail_of_eq_nil hB]
                simp [specRuns]
            | cons d t =>
                rw [splitTail_of_eq_cons hB, specRuns,
                  if_neg (by simp [dropWhile_head_false isTokenChar hB])]
                have ht : t.length ≤ n := by
                  have h1 : (d :: t).length ≤ cs.length := by
                    rw [← hB]
                    exact length_dropWhile_le isTokenChar cs
                  have h2 : cs.length ≤ n := by
                    simpa [Nat.succ_le_succ_iff] using hl
                  simp only [List.length_cons] at h1
                  omega
                exact ih t ht
          · have h2 : cs.length ≤ n := by
              simpa [Nat.succ_le_succ_iff] using hl
            have hstep : tokChunks (c :: cs) = tokChunks cs := by
              rw [tokChunks, tokChunks, splitChars, if_neg h]
              simp [List.filter_cons]
            rw [hstep, specRuns, if_neg h]
            exact ih cs h2

/-- The implementation tokenizer extracts exactly the maximal runs of
accepted characters. -/
lemma tokenize_eq_specTokenize (s : String) : tokenize s = specTokenize s :=
  tokChunks_eq_specRuns_fuel (s.data.map Char.toLower).length _ le_rfl

/-! ### Properties of the stable descending sort -/

lemma mem_insertDesc {x a : DocRecord × ℝ} :
    ∀ {l : List (DocRecord × ℝ)}, a ∈ insertDesc x l ↔ a = x ∨ a ∈ l := by
  intro l
  induction l with
  | nil => simp [insertDesc]
  | cons y ys ih =>
      rw [insertDesc]
      split
      · simp
      · simp only [List.mem_cons, ih]
        tauto

lemma pairwise_insertDesc {x : DocRecord × ℝ} {l : List (DocRecord × ℝ)}
    (hl : l.Pairwise (fun p q => q.2 ≤ p.2)) :
    (insertDesc x l).Pairwise (fun p q => q.2 ≤ p.2) := by
  induction l with
  | nil => simp [insertDesc]
  | cons y ys ih =>
      rw [insertDesc]
      rw [List.pairwise_cons] at hl
      split
      · next hxy =>
          refine List.pairwise_cons.mpr ⟨?_, List.pairwise_cons.mpr hl⟩
          intro z hz
          rcases List.mem_cons.mp hz with rfl | hz'
          · exact hxy
          · exact (hl.1 z hz').trans hxy
      · next hxy =>
          refine List.pairwise_cons.mpr ⟨?_, ih hl.2⟩
          intro z hz
          rcases mem_insertDesc.mp hz with rfl | hz'
          · exact le_of_lt (lt_of_not_le hxy)
          · exact hl.1 z hz'

/-- The sorted scored list is ordered by non-increasing score. -/
lemma sortDesc_pairwise (l : List (DocRecord × ℝ)) :
    (sortDesc l).Pairwise (fun p q => q.2 ≤ p.2) := by
  induction l with
  | nil => simp [sortDesc]
  | cons x xs ih => exact pairwise_insertDesc ih

lemma mem_sortDesc {a : DocRecord × ℝ} :
    ∀ {l : List (DocRecord × ℝ)}, a ∈ sortDesc l ↔ a ∈ l := by
  intro l
  induction l with
  | nil => simp [sortDesc]
  | cons x xs ih =>
      rw [sortDesc, mem_insertDesc, ih]
      simp

lemma filter_insertDesc (c : ℝ) (x : DocRecord × ℝ) (l : List (DocRecord × ℝ)) :
    (insertDesc x l).filter (fun p => p.2 = c) =
      if x.2 = c then x :: l.filter (fun p => p.2 = c)
      else l.filter (fun p => p.2 = c) := by
  induction l with
  | nil =>
      rw [insertDesc]
      by_cases hx : x.2 = c <;> simp [List.filter_cons, hx]
  | cons y ys ih =>
      rw [insertDesc]
      split
      · by_cases hx : x.2 = c <;> simp [List.filter_cons, hx]
      · next hxy =>
          have hlt : x.2 < y.2 := lt_of_not_le hxy
          by_cases hy : y.2 = c
          · have hx : ¬ x.2 = c := by
              intro hx
              rw [hx, hy] at hlt
              exact lt_irrefl c hlt
            simp [List.filter_cons, hy, hx, ih]
          · by_cases hx : x.2 = c <;> simp [List.filter_cons, hy, hx, ih]

/-- Stability of the sort: for every score value, the subsequence of
entries carrying exactly that score is unchanged by sorting. -/
lemma filter_sortDesc (c : ℝ) (l : List (DocRecord × ℝ)) :
    (sortDesc l).filter (fun p => p.2 = c) = l.filter (fun p => p.2 = c) := by
  induction l with
  | nil => simp [sortDesc]
  | cons x xs ih =>
      rw [sortDesc, filter_insertDesc, ih]
      by_cases hx : x.2 = c <;> simp [List.filter_cons, hx]

/-! ### Arithmetic facts about the scoring formula -/

lemma avgEff_pos (avg : ℚ) (h : 0 ≤ avg) : 0 < avgEff avg := by
  rw [avgEff]
  split
  · norm_num
  · next hne => exact lt_of_le_of_ne h (Ne.symm hne)

/-- Every denominator built by the score loop is strictly positive: the
code never divides by zero. -/
lemma scoreDenom_pos (tf dl : ℕ) (avg : ℚ) (h : 0 ≤ avg) :
    0 < scoreDenom tf dl avg := by
  have hA : (0 : ℝ) < ((avgEff avg : ℚ) : ℝ) := by
    exact_mod_cast avgEff_pos avg h
  rw [scoreDenom, k1, b]
  have h1 : (0 : ℝ) ≤ 0.75 * (dl : ℝ) / ((avgEff avg : ℚ) : ℝ) := by positivity
  have h2 : (0 : ℝ) ≤ (tf : ℝ) := Nat.cast_nonneg tf
  nlinarith

lemma idfVal_pos {N df : ℕ} (h : df ≤ N) : 0 < idfVal N df := by
  rw [idfVal]
  apply Real.log_pos
  have hd : (0 : ℝ) < (df : ℝ) + 0.5 := by positivity
  have hle : (df : ℝ) ≤ (N : ℝ) := by exact_mod_cast h
  have hn : (0 : ℝ) < (N : ℝ) - (df : ℝ) + 0.5 := by linarith
  have := div_pos hn hd
  linarith

/-- `idf` is antitone in the document frequency (rarer tokens weigh at
least as much). -/
lemma idfVal_anti {N df1 df2 : ℕ} (h1 : df1 < df2) (h2 : df2 ≤ N) :
    idfVal N df2 ≤ idfVal N df1 := by
  rw [idfVal, idfVal]
  have hd1 : (0 : ℝ) < (df1 : ℝ) + 0.5 := by positivity
  have hd2 : (0 : ℝ) < (df2 : ℝ) + 0.5 := by positivity
  have hc : (df1 : ℝ) < (df2 : ℝ) := by exact_mod_cast h1
  have hN2 : (df2 : ℝ) ≤ (N : ℝ) := by exact_mod_cast h2
  have hn2 : (0 : ℝ) < (N : ℝ) - (df2 : ℝ) + 0.5 := by linarith
  apply Real.log_le_log
  · have := div_pos hn2 hd2
    linarith
  · have hN0 : (0 : ℝ) ≤ (N : ℝ) := Nat.cast_nonneg N
    have key : ((N : ℝ) - (df2 : ℝ) + 0.5) * ((df1 : ℝ) + 0.5) ≤
        ((N : ℝ) - (df1 : ℝ) + 0.5) * ((df2 : ℝ) + 0.5) := by
      nlinarith [mul_nonneg hN0 (sub_nonneg.mpr hc.le)]
    have := (div_le_div_iff hd2 hd1).mpr key
    linarith

lemma rebuildAvg_nonneg (docs : List DocRecord) : 0 ≤ rebuildAvg docs := by
  rw [rebuildAvg]
  split
  · positivity
  · exact le_refl 0

lemma consistent_avg_nonneg {st : DbState} (hc : consistent st) :
    0 ≤ st.avgDocLength := by
  rw [hc.2]
  exact rebuildAvg_nonneg _

/-! ### Concrete corpora used to instantiate the theorems -/

/-- The state after `initialize(["apple banana", "cherry"])`. -/
def stPair : DbState :=
  (initializeVectorStore emptyState [some "apple banana", some "cherry"]).2

/-- The first record stored in `stPair`. -/
def dApple : DocRecord := mkRecord "apple banana"

lemma stPair_avg : stPair.avgDocLength = 3 / 2 := by
  have h0 : stPair.avgDocLength = rebuildAvg stPair.storedDocs := rfl
  have h1 : stPair.storedDocs.length = 2 := rfl
  have h2 : totalLen stPair.storedDocs = 3 := by decide
  rw [h0, rebuildAvg, h1, h2]
  norm_num

lemma stPair_avg_pos : 0 < stPair.avgDocLength := by
  rw [stPair_avg]
  norm_num

/-! ### Claim theorems -/

lemma specRuns_eq_nil {l : List Char} (h : ∀ c ∈ l, isTokenChar c = false) :
    specRuns l = [] := by
  induction l with
  | nil => simp [specRuns]
  | cons c cs ih =>
      rw [specRuns, if_neg (by simp [h c (List.mem_cons_self c cs)])]
      exact ih fun c' hc' => h c' (List.mem_cons_of_mem c hc')

/-- C9: the tokenizer is total and returns the ordered maximal runs of
`[a-z0-9]` characters of the lower-cased input; characters outside the
class act as separators, and empty or all-separator input yields the
empty sequence. -/
theorem tokenize_spec (s : String) :
    tokenize s = specTokenize s ∧
    tokenize "" = [] ∧
    ((∀ c ∈ s.data, isTokenChar (Char.toLower c) = false) → tokenize s = []) := by
  refine ⟨tokenize_eq_specTokenize s, rfl, fun h => ?_⟩
  rw [tokenize_eq_specTokenize, specTokenize]
  apply specRuns_eq_nil
  intro c hc
  rcases List.mem_map.mp hc with ⟨c0, hc0, rfl⟩
  exact h c0 hc0

/-- Witness for C9 at the all-punctuation input `"!!!"`. -/
theorem tokenize_spec_witness : tokenize "!!!" = [] :=
  (tokenize_spec "!!!").2.2 (by decide)

/-- C7: if the query tokenizes to nothing, or the corpus store is empty
(in particular before any `initialize`), `search` returns the empty
sequence (it is a total function — no failure is modelled). -/
theorem searchDocuments_empty_cases (st : DbState) (q : String) (k : ℕ)
    (h : st.storedDocs = [] ∨ tokenize q = []) :
    searchDocuments st q k = [] := by
  rcases h with h | h
  · simp [searchDocuments, h]
  · simp [searchDocuments, h]

/-- Witness for C7: searching the pristine service state returns `[]`. -/
theorem searchDocuments_empty_cases_witness :
    searchDocuments emptyState "apple" 5 = [] :=
  searchDocuments_empty_cases emptyState "apple" 5 (Or.inl rfl)

/-- C10: `search` is read-only — it returns the state unchanged (all three
module variables included), so a search interposed between a mutation and
another search does not affect the latter's result. -/
theorem searchDocuments_read_only (st : DbState) (q q2 : String) (k k2 : ℕ) :
    (searchDocumentsS st q k).2 = st ∧
    (searchDocumentsS st q k).2.storedDocs = st.storedDocs ∧
    (searchDocumentsS st q k).2.dfMap = st.dfMap ∧
    (searchDocumentsS st q k).2.avgDocLength = st.avgDocLength ∧
    searchDocuments (searchDocumentsS st q2 k2).2 q k = searchDocuments st q k :=
  ⟨rfl, rfl, rfl, rfl, rfl⟩

lemma dApple_contrib_pos :
    0 < tokenContrib stPair.storedDocs.length stPair.dfMap stPair.avgDocLength
      dApple "apple" := by
  have htf : dApple.termFreq "apple" = 1 := by decide
  have hdf : stPair.dfMap "apple" = 1 := by decide
  have hN : stPair.storedDocs.length = 2 := rfl
  rw [tokenContrib, htf, if_neg one_ne_zero, hdf, hN]
  apply mul_pos (idfVal_pos (by norm_num))
  apply div_pos
  · rw [k1]
    norm_num
  · exact scoreDenom_pos _ _ _ (le_of_lt stPair_avg_pos)

/-- C1 is FALSE of the code: on the corpus
`["apple banana", "cherry"]`, the first document scores differently
against the query token sequence `["apple", "apple"]` and against its
deduplication `["apple"]` — each occurrence of a repeated query token
contributes again. -/
theorem searchScore_dedup_counterexample :
    scoreDoc stPair.storedDocs.length stPair.dfMap stPair.avgDocLength dApple
        ["apple", "apple"] ≠
      scoreDoc stPair.storedDocs.length stPair.dfMap stPair.avgDocLength dApple
        (["apple", "apple"].dedup) := by
  have hd : (["apple", "apple"] : List String).dedup = ["apple"] := by decide
  rw [hd]
  simp only [scoreDoc, List.map_cons, List.map_nil, List.sum_cons, List.sum_nil,
    add_zero]
  intro h
  have hc := dApple_contrib_pos
  linarith

/-- C1 amended: a query token contributes once per occurrence, i.e., the
score of a document against a query equals the sum over the distinct
query tokens of the per-token contribution weighted by the token's
multiplicity in the query (query term frequency does act as a weight). -/
theorem scoreDoc_count_weighted (N : ℕ) (df : String → ℕ) (avg : ℚ)
    (d : DocRecord) (Q : List String) :
    scoreDoc N df avg d Q =
      ∑ t ∈ Q.toFinset, Q.count t • tokenContrib N df avg d t := by
  rw [scoreDoc]
  exact Finset.sum_list_map_count Q _

/-- C5: search returns at most `k` entries, every returned entry has
score `> 0`, entries are sorted by non-increasing score, and the sort is
stable: for every score value, the entries carrying it stay in the
insertion order of their documents. -/
theorem searchDocuments_ranking_properties (st : DbState) (q : String) (k : ℕ) :
    (searchDocuments st q k).length ≤ k ∧
    (∀ r ∈ searchDocuments st q k, 0 < r.score) ∧
    (searchDocuments st q k).Pairwise (fun r s => s.score ≤ r.score) ∧
    (∀ c : ℝ, (sortDesc (scoredList st (tokenize q))).filter (fun p => p.2 = c) =
      (scoredList st (tokenize q)).filter (fun p => p.2 = c)) := by
  refine ⟨?_, ?_, ?_, fun c => filter_sortDesc c _⟩
  · rw [searchDocuments]
    split
    · simp
    · split
      · simp
      · rw [List.length_map]
        exact List.length_take_le _ _
  · intro r hr
    rw [searchDocuments] at hr
    split at hr
    · simp at hr
    · split at hr
      · simp at hr
      · rcases List.mem_map.mp hr with ⟨p, hp, rfl⟩
        have hpf := List.mem_filter.mp (List.take_subset _ _ hp)
        exact of_decide_eq_true hpf.2
  · rw [searchDocuments]
    split
    · simp
    · split
      · simp
      · rw [List.pairwise_map]
        refine List.Pairwise.sublist ?_ (sortDesc_pairwise (scoredList st (tokenize q)))
        exact (List.take_sublist _ _).trans (List.filter_sublist _)

/-! ### Batch-failure behavior (C2, C3) -/

lemma buildRecords_malformed (good : List String) (rest : List (Option String)) :
    buildRecords (good.map some ++ none :: rest) = none := by
  induction good with
  | nil => rfl
  | cons g gs ih => simp [buildRecords, ih]

lemma initialize_of_some {st : DbState} {documents : List (Option String)}
    {ds : List DocRecord} (h : buildRecords documents = some ds) :
    initializeVectorStore st documents =
      (true, rebuildIndex { st with storedDocs := ds }) := by
  rw [initializeVectorStore, h]

lemma initialize_of_none {st : DbState} {documents : List (Option String)}
    (h : buildRecords documents = none) :
    initializeVectorStore st documents = (false, st) := by
  rw [initializeVectorStore, h]

lemma addLoop_malformed (st : DbState) (good : List String)
    (rest : List (Option String)) :
    addLoop st (good.map some ++ none :: rest) =
      (false, { st with storedDocs := st.storedDocs ++ good.map mkRecord }) := by
  induction good generalizing st with
  | nil => simp [addLoop]
  | cons g gs ih =>
      simp only [List.map_cons, List.cons_append, addLoop, List.append_eq]
      rw [ih]
      simp [List.append_assoc]

/-- The state after `initialize(["apple"])`. -/
def stApple : DbState := (initializeVectorStore emptyState [some "apple"]).2

/-- The C2 claim as stated is FALSE of the code: appending
`["banana", null]` to a corpus holding `"apple"` fails, but the record
built from `"banana"` stays in the corpus store — the store observed
afterwards differs from the store before the call. -/
theorem addDocuments_partial_insertion_counterexample :
    (addDocuments stApple [some "banana", none]).1 = false ∧
    (addDocuments stApple [some "banana", none]).2.storedDocs ≠
      stApple.storedDocs := by
  refine ⟨rfl, fun h => ?_⟩
  exact absurd (congrArg List.length h) (by decide)

/-- C2 amended: on a batch containing a malformed entry,
`initializeVectorStore` fails atomically (reports `false`, state exactly
as before), while `addDocuments` fails after inserting the records of
the longest well-formed leading segment of the batch into the corpus
store, leaving `dfMap` and `avgDocLength` untouched. -/
theorem batchLoad_malformed_behavior (st : DbState) (good : List String)
    (rest : List (Option String)) :
    initializeVectorStore st (good.map some ++ none :: rest) = (false, st) ∧
    addDocuments st (good.map some ++ none :: rest) =
      (false, { st with storedDocs := st.storedDocs ++ good.map mkRecord }) := by
  constructor
  · exact initialize_of_none (buildRecords_malformed good rest)
  · rw [addDocuments]
    exact addLoop_malformed st good rest

lemma addLoop_success (st : DbState) (documents : List (Option String))
    (h : (addLoop st documents).1 = true) :
    consistent (addLoop st documents).2 := by
  induction documents generalizing st with
  | nil => exact consistent_rebuildIndex st
  | cons o rest ih =>
      cases o with
      | some s =>
          rw [addLoop] at h ⊢
          exact ih _ h
      | none =>
          rw [addLoop] at h
          simp at h

/-- The C3 claim as stated is FALSE of the code: after the failed
`addDocuments(["banana", null])` on a corpus holding `"apple"`, the
statistics are NOT consistent with the store — `dfMap` has no entry for
`"banana"` although one stored record now contains it. -/
theorem failed_append_inconsistent_counterexample :
    ¬ consistent (addDocuments stApple [some "banana", none]).2 := by
  intro hc
  exact absurd (hc.1 "banana") (by decide)

/-- C3 amended: after every COMPLETED mutation the Index Statistics are
consistent with the Corpus Store (`dfMap` counts, for each token, the
stored records containing it; `avgDocLength` is the mean token-sequence
length, `0` on the empty store; the corpus size read by search is
`storedDocs.length` itself), and a FAILED `initialize` leaves the state
exactly as before.  (A failed `append` is the exception — see the
counterexample.) -/
theorem mutation_consistency (st : DbState) (documents : List (Option String)) :
    ((initializeVectorStore st documents).1 = true →
      consistent (initializeVectorStore st documents).2) ∧
    ((initializeVectorStore st documents).1 = false →
      (initializeVectorStore st documents).2 = st) ∧
    ((addDocuments st documents).1 = true →
      consistent (addDocuments st documents).2) := by
  refine ⟨fun h => ?_, fun h => ?_, fun h => ?_⟩
  · cases hB : buildRecords documents with
    | some ds =>
        rw [initialize_of_some hB]
        exact consistent_rebuildIndex _
    | none =>
        rw [initialize_of_none hB] at h
        simp at h
  · cases hB : buildRecords documents with
    | some ds =>
        rw [initialize_of_some hB] at h
        simp at h
    | none => rw [initialize_of_none hB]
  · rw [addDocuments] at h ⊢
    exact addLoop_success st documents h

/-- Witness for C3 (amended) at `initialize(["apple"])`. -/
theorem mutation_consistency_witness :
    consistent (initializeVectorStore emptyState [some "apple"]).2 :=
  (mutation_consistency emptyState [some "apple"]).1 rfl

/-! ### The BM25 formula (C4) -/

/-- Modelled from the spec, §4.4: the contribution of one distinct query
token, written with the spec's own constants `k1 = 1.5`, `b = 0.75`, the
document length `|d.tokens|` and the raw `S.averageDocumentLength`. -/
noncomputable def specBM25Contribution (N df tf dl : ℕ) (avg : ℚ) : ℝ :=
  Real.log (1 + ((N : ℝ) - (df : ℝ) + 0.5) / ((df : ℝ) + 0.5)) *
    (((tf : ℝ) * (1.5 + 1)) /
      ((tf : ℝ) + 1.5 * (1 - 0.75 + 0.75 * (dl : ℝ) / ((avg : ℚ) : ℝ))))

/-- C4: on a corpus with positive average document length, the score
contribution of a query token with positive term frequency is exactly
the spec's BM25 term (with `k1 = 1.5`, `b = 0.75`, natural-log idf and
the true document length), and a token with zero term frequency
contributes `0`.  The hypothesis `hinv` is the §3 Document Record
invariant (the term-frequency map holds the token occurrence counts),
true of every record the service constructs. -/
theorem tokenContrib_bm25_formula (N : ℕ) (df : String → ℕ) (avg : ℚ)
    (d : DocRecord) (t : String)
    (hinv : ∀ u, d.termFreq u = d.tokens.count u) (havg : 0 < avg) :
    (0 < d.termFreq t →
      tokenContrib N df avg d t =
        specBM25Contribution N (df t) (d.termFreq t) d.tokens.length avg) ∧
    (d.termFreq t = 0 → tokenContrib N df avg d t = 0) := by
  constructor
  · intro htf
    have hmem : t ∈ d.tokens := by
      rw [hinv t] at htf
      exact List.count_pos_iff.mp htf
    have hlen : d.tokens.length ≠ 0 := by
      intro hl
      rw [List.length_eq_zero.mp hl] at hmem
      simp at hmem
    have hdl : dlEff d = d.tokens.length := by
      rw [dlEff, if_neg hlen]
    have havgEff : avgEff avg = avg := by
      rw [avgEff, if_neg (ne_of_gt havg)]
    rw [tokenContrib, if_neg htf.ne', specBM25Contribution, scoreDenom, idfVal,
      hdl, havgEff, k1, b]
  · intro h0
    rw [tokenContrib, if_pos h0]

/-- Witness for C4 on the corpus `["apple banana", "cherry"]`, token
`"apple"` in the first document. -/
theorem tokenContrib_bm25_formula_witness :
    tokenContrib stPair.storedDocs.length stPair.dfMap stPair.avgDocLength
        dApple "apple" =
      specBM25Contribution stPair.storedDocs.length (stPair.dfMap "apple")
        (dApple.termFreq "apple") dApple.tokens.length stPair.avgDocLength :=
  (tokenContrib_bm25_formula stPair.storedDocs.length stPair.dfMap
      stPair.avgDocLength dApple "apple"
      (fun u => buildFreq_eq_count (tokenize "apple banana") u)
      stPair_avg_pos).1 (by decide)

/-! ### Monotonic rarity (C6) -/

/-- C6: with the same index statistics, a rarer token (`df t1 < df t2`,
both within the corpus size) scores a document at least as high as a
more frequent one does an equally long document with the same term
frequency. -/
theorem monotonic_rarity (N : ℕ) (df : String → ℕ) (avg : ℚ)
    (d1 d2 : DocRecord) (t1 t2 : String) (hdf : df t1 < df t2)
    (hN : df t2 ≤ N) (htf : d1.termFreq t1 = d2.termFreq t2)
    (hdl : d1.tokens.length = d2.tokens.length) (havg : 0 ≤ avg) :
    scoreDoc N df avg d2 [t2] ≤ scoreDoc N df avg d1 [t1] := by
  simp only [scoreDoc, List.map_cons, List.map_nil, List.sum_cons,
    List.sum_nil, add_zero]
  have hdleq : dlEff d1 = dlEff d2 := by
    rw [dlEff, dlEff, hdl]
  by_cases h0 : d2.termFreq t2 = 0
  · rw [tokenContrib, tokenContrib, if_pos h0, if_pos (htf.trans h0)]
  · rw [tokenContrib, tokenContrib, if_neg h0,
      if_neg (fun hh => h0 (htf ▸ hh)), htf, hdleq]
    apply mul_le_mul_of_nonneg_right (idfVal_anti hdf hN)
    apply div_nonneg
    · apply mul_nonneg (Nat.cast_nonneg _)
      rw [k1]
      norm_num
    · exact (scoreDenom_pos _ _ _ havg).le

/-- The state after
`initialize(["apple banana", "banana cherry", "banana"])`:
`df("apple") = 1 < df("banana") = 3`. -/
def stTri : DbState :=
  (initializeVectorStore emptyState
    [some "apple banana", some "banana cherry", some "banana"]).2

/-- Witness for C6: on `stTri`, the first document scored against
`"banana"` alone ranks no higher than against `"apple"` alone. -/
theorem monotonic_rarity_witness :
    scoreDoc stTri.storedDocs.length stTri.dfMap stTri.avgDocLength
        (mkRecord "apple banana") ["banana"] ≤
      scoreDoc stTri.storedDocs.length stTri.dfMap stTri.avgDocLength
        (mkRecord "apple banana") ["apple"] :=
  monotonic_rarity stTri.storedDocs.length stTri.dfMap stTri.avgDocLength
    (mkRecord "apple banana") (mkRecord "apple banana") "apple" "banana"
    (by decide) (by decide) (by decide) rfl
    (by
      have h : stTri.avgDocLength = rebuildAvg stTri.storedDocs := rfl
      rw [h]
      exact rebuildAvg_nonneg _)

/-! ### No numeric failure (C8) -/

/-- C8 amended: searches never divide by zero — both idf denominators and
every BM25 score denominator the loop can build are strictly positive —
and when the stored average document length is `0` IN A STATE WHOSE
STATISTICS MATCH THE STORE (empty corpus, or a non-empty corpus all of
whose documents tokenize to nothing) the search returns the empty
sequence.  `hc` requires the statistics to match the store and `hrec` is
the §3 record invariant; both hold after every completed mutation, but a
failed `addDocuments` can break `hc`, and then `avgDocLength = 0` no
longer forces an empty result — see the counterexample below. -/
theorem searchDocuments_no_division_by_zero (st : DbState) (q : String)
    (k : ℕ) (hc : consistent st)
    (hrec : ∀ d ∈ st.storedDocs, ∀ u, d.termFreq u = d.tokens.count u) :
    (∀ t : String, (0 : ℝ) < (st.dfMap t : ℝ) + 0.5) ∧
    (∀ d ∈ st.storedDocs, ∀ t : String,
      0 < scoreDenom (d.termFreq t) (dlEff d) st.avgDocLength) ∧
    (st.avgDocLength = 0 → searchDocuments st q k = []) := by
  have havg : 0 ≤ st.avgDocLength := consistent_avg_nonneg hc
  refine ⟨fun t => by positivity, fun d _ t => scoreDenom_pos _ _ _ havg,
    fun h0 => ?_⟩
  rw [searchDocuments]
  split
  · rfl
  · next hne =>
      split
      · rfl
      · have hlen0 : ∀ d ∈ st.storedDocs, d.tokens.length = 0 := by
          intro d hd
          have havgdef := hc.2
          rw [h0, rebuildAvg, if_pos (Nat.pos_of_ne_zero hne)] at havgdef
          have hlenq : ((st.storedDocs.length : ℚ)) ≠ 0 := by
            exact_mod_cast hne
          have htot : (totalLen st.storedDocs : ℚ) = 0 := by
            rcases div_eq_zero_iff.mp havgdef.symm with h | h
            · exact h
            · exact absurd h hlenq
          have htot' : totalLen st.storedDocs = 0 := by exact_mod_cast htot
          rw [totalLen] at htot'
          exact List.sum_eq_zero_iff.mp htot' _ (List.mem_map_of_mem _ hd)
        have hzero : ∀ p ∈ sortDesc (scoredList st (tokenize q)), ¬ 0 < p.2 := by
          intro p hp
          rcases List.mem_map.mp (mem_sortDesc.mp hp) with ⟨d, hd, rfl⟩
          have hs : scoreDoc st.storedDocs.length st.dfMap st.avgDocLength d
              (tokenize q) = 0 := by
            rw [scoreDoc]
            apply List.sum_eq_zero
            intro x hx
            rcases List.mem_map.mp hx with ⟨qt, hqt, rfl⟩
            have hq0 : d.termFreq qt = 0 := by
              rw [hrec d hd qt, List.length_eq_zero.mp (hlen0 d hd)]
              simp
            rw [tokenContrib, if_pos hq0]
          simp only [hs]
          exact lt_irrefl 0
        have hfil : (sortDesc (scoredList st (tokenize q))).filter
            (fun p => 0 < p.2) = [] := by
          apply List.filter_eq_nil_iff.mpr
          intro a ha
          simpa using hzero a ha
        rw [hfil]
        simp

/-- The state after `initialize(["!!!", "???"])`: a non-empty corpus
whose documents all tokenize to nothing, so the stored average document
length is `0`. -/
def stZero : DbState :=
  (initializeVectorStore emptyState [some "!!!", some "???"]).2

/-- Witness for C8: on the all-punctuation corpus the average length is
`0` and the search short-circuits to the empty sequence. -/
theorem searchDocuments_no_division_by_zero_witness :
    searchDocuments stZero "apple" 5 = [] := by
  have hrec : ∀ d ∈ stZero.storedDocs, ∀ u, d.termFreq u = d.tokens.count u := by
    have hS : stZero.storedDocs = [mkRecord "!!!", mkRecord "???"] := rfl
    intro d hd u
    rw [hS] at hd
    simp only [List.mem_cons, List.not_mem_nil, or_false] at hd
    rcases hd with rfl | rfl
    · exact buildFreq_eq_count _ u
    · exact buildFreq_eq_count _ u
  have hc : consistent stZero := ⟨fun t => rebuildDf_eq _ t, rfl⟩
  have h0 : stZero.avgDocLength = 0 := by
    have h : stZero.avgDocLength = rebuildAvg stZero.storedDocs := rfl
    have htot : totalLen stZero.storedDocs = 0 := by decide
    have hlen : stZero.storedDocs.length = 2 := rfl
    rw [h, rebuildAvg, htot, hlen]
    norm_num
  exact (searchDocuments_no_division_by_zero stZero "apple" 5 hc hrec).2.2 h0

/-! ### Drift makes the original C8 claim fail (counterexample) -/

lemma sortDesc_singleton (x : DocRecord × ℝ) : sortDesc [x] = [x] := by
  rw [sortDesc, sortDesc, insertDesc]

/-- The reachable drifted state: `initialize([])` followed by the failed
`addDocuments(["banana", null])` — the store holds the `"banana"` record
while the statistics still describe the empty corpus, so
`avgDocLength = 0` with a non-empty store. -/
def stDrift : DbState :=
  (addDocuments (initializeVectorStore emptyState []).2 [some "banana", none]).2

lemma stDrift_contrib_pos :
    0 < tokenContrib stDrift.storedDocs.length stDrift.dfMap
      stDrift.avgDocLength (mkRecord "banana") "banana" := by
  have htf : (mkRecord "banana").termFreq "banana" = 1 := by decide
  have hdf : stDrift.dfMap "banana" = 0 := by decide
  have hN : stDrift.storedDocs.length = 1 := rfl
  rw [tokenContrib, htf, if_neg one_ne_zero, hdf, hN]
  apply mul_pos (idfVal_pos (Nat.zero_le 1))
  apply div_pos
  · rw [k1]
    norm_num
  · exact scoreDenom_pos _ _ _ (le_of_eq (rfl : (0 : ℚ) = stDrift.avgDocLength))

/-- The C8 claim as stated is FALSE of the code: in the reachable state
`initialize([])` then failed `addDocuments(["banana", null])`, the stored
average document length is `0`, yet `search("banana")` returns a
non-empty sequence — the `avgDocLength || 1` guard scores the drifted
record (`dl = 1`, denominator `2.5`, `idf = ln 4 > 0`) instead of
short-circuiting. -/
theorem avg_zero_nonempty_counterexample :
    stDrift.avgDocLength = 0 ∧ searchDocuments stDrift "banana" 5 ≠ [] := by
  refine ⟨rfl, ?_⟩
  have hpos := stDrift_contrib_pos
  have hscore : scoreDoc stDrift.storedDocs.length stDrift.dfMap
      stDrift.avgDocLength (mkRecord "banana") (tokenize "banana") =
      tokenContrib stDrift.storedDocs.length stDrift.dfMap stDrift.avgDocLength
        (mkRecord "banana") "banana" := by
    have hq : tokenize "banana" = ["banana"] := by decide
    rw [hq, scoreDoc]
    simp
  have hsc : scoredList stDrift (tokenize "banana") =
      [(mkRecord "banana",
        scoreDoc stDrift.storedDocs.length stDrift.dfMap stDrift.avgDocLength
          (mkRecord "banana") (tokenize "banana"))] := rfl
  have hcond : 0 < scoreDoc stDrift.storedDocs.length stDrift.dfMap
      stDrift.avgDocLength (mkRecord "banana") (tokenize "banana") := by
    rw [hscore]
    exact hpos
  rw [searchDocuments, if_neg (by decide), if_neg (by decide), hsc,
    sortDesc_singleton, List.filter_cons, List.filter_nil,
    if_pos (decide_eq_true hcond)]
  simp

end VectorDb
